import Mathlib

/-!
Shallow embedding of the real-time note-scheduling and playback engine of the
falling-notes piano application (source: src/src/App.jsx).  All times are
modelled as exact rationals; the JavaScript code uses IEEE doubles, so the
algebraic identities proved here hold exactly in the rational model.

The embedding covers, faithfully to the source:
  * constants (App.jsx lines 12-61),
  * mergeConsecutiveNotes (lines 88-114) and the load path (707-741),
  * the binary lower-bound search (273-280) and the visible-window scan
    (1116-1127),
  * the playback state, the transport commands play / pause / stop
    (859-944), the rate-change anchor reset (650-655),
  * resetVisualState (381-389), determineFrameInterval (391-398),
  * renderFrame's landing detection and frame metrics (1063-1249), and
  * the per-frame driver draw with its loop-wrap / hard-stop decision
    (998-1056).

Purely cosmetic per-frame state (particles, ripples, trails, auras, key
flashes, background intensity) influences no scheduling decision and no
trigger; it is omitted from the state.  The canvas-ready guard of
renderFrame (a missing canvas or a zero-sized canvas makes the frame a
no-op) is modelled by the test 0 < H on the configured canvas height.
-/

namespace FallingNotes

/-- Engine constants, App.jsx lines 12-61 (values in seconds, px, ms). -/
def SPEED : ℚ := 140

def KB_HEIGHT : ℚ := 140

def NOTE_MIN_HEIGHT : ℚ := 10

def VISUAL_MAX_SEC : ℚ := 5/2

def STOP_TAIL : ℚ := 1

def VISUAL_MERGE_GAP : ℚ := 6/100

def FAST_FRAME_INTERVAL : ℚ := 1000/60

def MEDIUM_FRAME_INTERVAL : ℚ := 1000/30

def SLOW_FRAME_INTERVAL : ℚ := 1000/15

/-- A parsed note.  Field `i` is the stable id assigned on load, `midi` the
pitch, `start`/`endSec` the note interval in seconds (`end` in the source;
renamed because `end` is a Lean keyword), `vel` the normalized velocity. -/
structure Note where
  i : ℕ
  midi : ℕ
  start : ℚ
  endSec : ℚ
  vel : ℚ
deriving DecidableEq, Repr

/-- Ascending-by-start comparison used by every `sort((a,b)=>a.start-b.start)`
call in the source. -/
def startLE (a b : Note) : Prop := a.start ≤ b.start

instance : DecidableRel startLE := fun a b => inferInstanceAs (Decidable (a.start ≤ b.start))

instance : IsTotal Note startLE := ⟨fun a b => le_total a.start b.start⟩

instance : IsTrans Note startLE := ⟨fun _ _ _ h1 h2 => le_trans h1 h2⟩

/-- A list is sorted ascending by `start`. -/
def SortedByStart (l : List Note) : Prop := l.Pairwise startLE

/-- JavaScript's stable `Array.prototype.sort` with comparator
`(a,b)=>a.start-b.start`, modelled by the stable insertion sort. -/
def sortByStart (l : List Note) : List Note := l.insertionSort startLE

/-- The pitches occurring in `notes`, in order of first occurrence: the key
order of the `byPitch` insertion-ordered map of mergeConsecutiveNotes. -/
def pitchKeys (notes : List Note) : List ℕ :=
  notes.foldl (fun ks n => if n.midi ∈ ks then ks else ks ++ [n.midi]) []

/-- The per-pitch buckets of the `byPitch` map, in key order. -/
def groupByPitch (notes : List Note) : List (List Note) :=
  (pitchKeys notes).map (fun p => notes.filter (fun n => n.midi == p))

/-- Fusing step of mergeConsecutiveNotes (App.jsx lines 102-104). -/
def fuse (cur nxt : Note) : Note :=
  { cur with endSec := max cur.endSec nxt.endSec, vel := max cur.vel nxt.vel }

/-- Inner loop of mergeConsecutiveNotes over one pitch bucket: `cur` is the
running candidate, the list is the remaining bucket (lines 98-110). -/
def mergeGroupAux (gap : ℚ) (cur : Note) : List Note → List Note
  | [] => [cur]
  | nxt :: rest =>
    if -(1/1000) ≤ nxt.start - cur.endSec ∧ nxt.start - cur.endSec ≤ gap then
      mergeGroupAux gap (fuse cur nxt) rest
    else cur :: mergeGroupAux gap nxt rest

/-- One pitch bucket's contribution to `out` (the bucket is non-empty in the
source; the empty case is unreachable there). -/
def mergeGroup (gap : ℚ) : List Note → List Note
  | [] => []
  | a :: rest => mergeGroupAux gap a rest

/-- The final `out.map((n,i)=>({...n, i}))` of mergeConsecutiveNotes:
reassign ids sequentially from `k`. -/
def assignIdsFrom (k : ℕ) : List Note → List Note
  | [] => []
  | n :: tl => { n with i := k } :: assignIdsFrom (k + 1) tl

/-- mergeConsecutiveNotes (App.jsx lines 88-114): bucket the notes by pitch
in first-occurrence key order, sort each bucket by start, fuse chains of
same-pitch notes whose gap lies in [-0.001, gap], concatenate the buckets,
sort the result by start, and reassign ids by position. -/
def mergeConsecutiveNotes (notes : List Note) (gap : ℚ) : List Note :=
  if notes = [] then []
  else
    assignIdsFrom 0
      (sortByStart
        (((groupByPitch notes).map (fun arr => mergeGroup gap (sortByStart arr))).flatten))

/-- The note array installed by loadMidiFromBytes (lines 720-724): the flat
parsed list is sorted by start and passed to mergeConsecutiveNotes with the
default gap. -/
def installedNotes (flat : List Note) : List Note :=
  mergeConsecutiveNotes (sortByStart flat) VISUAL_MERGE_GAP

/-- Binary lower-bound search, inner loop (App.jsx lines 273-280).
`(lo + hi) >> 1` is Nat floor division by two. -/
def lbAux (arr : List ℚ) (x : ℚ) (lo hi : ℕ) : ℕ :=
  if _h : lo < hi then
    if arr.getD ((lo + hi) / 2) 0 < x then lbAux arr x ((lo + hi) / 2 + 1) hi
    else lbAux arr x lo ((lo + hi) / 2)
  else lo
termination_by hi - lo
decreasing_by
  all_goals omega

/-- lowerBound (App.jsx lines 273-280): least index at which `x` could be
inserted keeping a sorted array sorted. -/
def lowerBound (arr : List ℚ) (x : ℚ) : ℕ := lbAux arr x 0 arr.length

/-- The per-frame visible-window scan (App.jsx lines 1122-1125): start at the
lower-bound index for `winStart` over the starts array and walk while
`notes[idx].start <= winEnd`. -/
def visibleScan (notes : List Note) (winStart winEnd : ℚ) : List Note :=
  (notes.drop (lowerBound (notes.map (·.start)) winStart)).takeWhile
    (fun n => decide (n.start ≤ winEnd))

/-- Frame render metrics returned by renderFrame (App.jsx line 1112):
drawn-note count and count of notes near the keyline. -/
structure FrameMetrics where
  drawnNotes : ℕ
  nearKeyline : ℕ
deriving DecidableEq, Repr

/-- One call of triggerNote (App.jsx lines 1142-1143), tagged with the id of
the note whose landing fired it. -/
structure TriggerEvent where
  noteId : ℕ
  midi : ℕ
  durPlay : ℚ
  vel : ℚ
deriving DecidableEq, Repr

/-- View geometry: canvas height and visible midi range.  A height of zero
models the `if(!W||!H) return` guard of renderFrame. -/
structure ViewCfg where
  H : ℚ
  viewMinMidi : ℕ
  viewMaxMidi : ℕ
deriving DecidableEq, Repr

/-- The mutable playback state: the timing refs of App.jsx lines 299-310
(`playheadRef`, `t0Ref`, `rateRef`, `prevTRef`, `isPlayingRef`,
`rafActiveRef`, `loopEnabledRef`, `durationRef`, `endTimeRef`) together
with the landed-note map `landedAtRef` (line 402), modelled as an
association list from note id to landing virtual time.  `endTime = none`
models `endTimeRef.current = Infinity`. -/
structure PlayState where
  playhead : ℚ
  t0 : ℚ
  rate : ℚ
  prevT : ℚ
  isPlaying : Bool
  rafActive : Bool
  loopEnabled : Bool
  duration : ℚ
  endTime : Option ℚ
  landedAt : List (ℕ × ℚ)
deriving DecidableEq, Repr

/-- Current virtual time (App.jsx line 1015): while playing it is derived
from the anchor, otherwise it is the frozen playhead. -/
def virtualTime (s : PlayState) (now : ℚ) : ℚ :=
  if s.isPlaying then (now - s.t0) * s.rate else s.playhead

/-- Rate-change anchor reset (App.jsx lines 650-655): re-anchor so the
playhead value is preserved, then adopt the new rate. -/
def setRate (now newRate : ℚ) (s : PlayState) : PlayState :=
  { s with t0 := now - s.playhead / newRate, rate := newRate, prevT := s.playhead }

/-- recomputeVisualEnd (App.jsx lines 689-704): latest disappear time of any
note, or Infinity (`none`) when the height or the song is unavailable. -/
def recomputeVisualEnd (H : ℚ) (src : List Note) : Option ℚ :=
  if H ≤ 0 ∨ src = [] then none
  else
    some (src.foldl
      (fun mx n =>
        max mx (n.start + max (NOTE_MIN_HEIGHT / SPEED) (min VISUAL_MAX_SEC (n.endSec - n.start))
          + (H - KB_HEIGHT) / SPEED))
      0)

/-- play (App.jsx lines 859-906), restricted to the modelled state: an empty
song returns before touching the transport (line 865); otherwise the visual
end is recomputed, the anchor is reset so the playhead continues, and the
frame loop is armed. -/
def play (notes : List Note) (cfg : ViewCfg) (now : ℚ) (s : PlayState) : PlayState :=
  if notes = [] then s
  else
    { s with
      endTime := recomputeVisualEnd cfg.H notes
      t0 := now - s.playhead / s.rate
      prevT := s.playhead
      isPlaying := true
      rafActive := true }

/-- pause (App.jsx lines 907-925): freeze the current virtual time into the
playhead, stop playing, cancel the frame loop.  The trailing
`renderFrame(tFreeze)` changes none of the modelled fields beyond what is
written here (no landings fire while not playing, and `prevT` is already
`tFreeze`). -/
def pause (now : ℚ) (s : PlayState) : PlayState :=
  let tFreeze := if s.isPlaying then (now - s.t0) * s.rate else s.playhead
  { s with isPlaying := false, playhead := tFreeze, prevT := tFreeze, rafActive := false }

/-- stop (App.jsx lines 926-944): halt, move the playhead to zero (or keep
it when `resetToZero` is false), re-anchor, and clear the landed-note map
via resetVisualState (lines 381-389). -/
def stop (now : ℚ) (resetToZero : Bool) (s : PlayState) : PlayState :=
  let target := if resetToZero then 0 else s.playhead
  { s with
    isPlaying := false
    playhead := target
    prevT := target
    t0 := now - target / s.rate
    landedAt := []
    rafActive := false }

/-- determineFrameInterval (App.jsx lines 391-398). -/
def determineFrameInterval (isPlaying : Bool) (metrics : Option FrameMetrics) : ℚ :=
  if !isPlaying then FAST_FRAME_INTERVAL
  else
    match metrics with
    | none => FAST_FRAME_INTERVAL
    | some m =>
      if m.drawnNotes ≤ 0 then SLOW_FRAME_INTERVAL
      else if m.drawnNotes < 6 ∧ m.nearKeyline < 2 then MEDIUM_FRAME_INTERVAL
      else FAST_FRAME_INTERVAL

/-- Lookback of the visible window (App.jsx line 1117). -/
def lookBack (H : ℚ) : ℚ := (H - KB_HEIGHT) / SPEED + VISUAL_MAX_SEC + 1

/-- Lookahead of the visible window (App.jsx line 1118). -/
def lookAhead (H : ℚ) : ℚ := (H - KB_HEIGHT) / SPEED + 1

/-- Visual height of a note in px (App.jsx lines 1128-1130):
`max(NOTE_MIN_HEIGHT/SPEED, min(VISUAL_MAX_SEC, durSec)) * SPEED`. -/
def noteVisH (n : Note) : ℚ :=
  max (NOTE_MIN_HEIGHT / SPEED) (min VISUAL_MAX_SEC (n.endSec - n.start)) * SPEED

/-- Bottom edge of a note at virtual time `t` (App.jsx lines 1132-1133):
`yTop + h` with `yTop = (t - start) * SPEED - h`. -/
def yBottomAt (t : ℚ) (n : Note) : ℚ :=
  ((t - n.start) * SPEED - noteVisH n) + noteVisH n

/-- Landing-edge crossing test of a tick (App.jsx line 1138): the bottom
edge was above the keyline at the previous frame and is at or below it
now. -/
def noteCrossed (cfg : ViewCfg) (tPrev t : ℚ) (n : Note) : Bool :=
  decide (yBottomAt tPrev n < cfg.H - KB_HEIGHT) &&
    decide (cfg.H - KB_HEIGHT ≤ yBottomAt t n)

/-- Landing decision of a tick (App.jsx line 1139): playing, crossing, and
not yet in the landed-note map. -/
def justLanded (cfg : ViewCfg) (tPrev t : ℚ) (playing : Bool)
    (landed : List (ℕ × ℚ)) (n : Note) : Bool :=
  playing && noteCrossed cfg tPrev t n && !(landed.lookup n.i).isSome

/-- Metrics update for one scanned note (App.jsx lines 1169-1174): skipped
when out of the visible midi range or fully offscreen; otherwise counted as
drawn, and as near the keyline when its bottom edge is within
[keyline - 40, keyline + 160]. -/
def noteMetric (cfg : ViewCfg) (t : ℚ) (m : FrameMetrics) (n : Note) : FrameMetrics :=
  let h := noteVisH n
  let yTop := (t - n.start) * SPEED - h
  let yBottom := yTop + h
  let keylineY := cfg.H - KB_HEIGHT
  let inView := decide (cfg.viewMinMidi ≤ n.midi + 1) && decide (n.midi ≤ cfg.viewMaxMidi + 1)
  let offscreen := decide (cfg.H < yTop) || decide (yBottom < 0)
  if inView && !offscreen then
    { drawnNotes := m.drawnNotes + 1
      nearKeyline :=
        if decide (keylineY - 40 ≤ yBottom) && decide (yBottom ≤ keylineY + 160) then
          m.nearKeyline + 1
        else m.nearKeyline }
  else m

/-- Per-note body of the renderFrame scan (App.jsx lines 1127-1202): landing
detection with its audio trigger (played duration
`max(0.05, durSec / rate)`), and the drawn / near-keyline metrics.  The
accumulator carries the landed-note map, the trigger events of this frame,
and the metrics so far. -/
def stepNote (cfg : ViewCfg) (tPrev t rate : ℚ) (playing : Bool)
    (acc : List (ℕ × ℚ) × List TriggerEvent × FrameMetrics) (n : Note) :
    List (ℕ × ℚ) × List TriggerEvent × FrameMetrics :=
  (if justLanded cfg tPrev t playing acc.1 n then (n.i, t) :: acc.1 else acc.1,
   if justLanded cfg tPrev t playing acc.1 n then
     acc.2.1 ++ [⟨n.i, n.midi, max (1/20) ((n.endSec - n.start) / rate), n.vel⟩]
   else acc.2.1,
   noteMetric cfg t acc.2.2 n)

/-- renderFrame (App.jsx lines 1063-1249), restricted to its scheduling
effects: scan the visible window, detect landings (firing the audio
triggers and recording them in the landed map), compute the metrics, and
set `prevT` to the rendered time.  With no usable canvas (`H <= 0`) the
frame is a no-op returning no metrics (line 1064/1067). -/
def renderFrame (cfg : ViewCfg) (notes : List Note) (t : ℚ) (s : PlayState) :
    PlayState × List TriggerEvent × Option FrameMetrics :=
  if cfg.H ≤ 0 then (s, [], none)
  else
    let scanned := visibleScan notes (t - lookBack cfg.H) (t + lookAhead cfg.H)
    let res := scanned.foldl (stepNote cfg s.prevT t s.rate s.isPlaying) (s.landedAt, [], ⟨0, 0⟩)
    ({ s with landedAt := res.1, prevT := t }, res.2.1, some res.2.2)

/-- stopLimit (App.jsx lines 1017-1018): `max(duration, visualEnd) +
STOP_TAIL`, where an Infinity visual end contributes zero. -/
def stopLimit (s : PlayState) : ℚ :=
  max s.duration (match s.endTime with | some v => v | none => 0) + STOP_TAIL

/-- The loop-wrap branch condition of draw (App.jsx lines 1021-1022). -/
def loopWrapFires (notes : List Note) (s : PlayState) (now : ℚ) : Prop :=
  s.isPlaying = true ∧ 0 < stopLimit s ∧ stopLimit s - 1/60 ≤ virtualTime s now ∧
    (s.loopEnabled = true ∧ notes ≠ [])

/-- The hard-stop branch condition of draw (App.jsx lines 1021, 1031). -/
def hardStopFires (notes : List Note) (s : PlayState) (now : ℚ) : Prop :=
  s.isPlaying = true ∧ 0 < stopLimit s ∧ stopLimit s - 1/60 ≤ virtualTime s now ∧
    ¬(s.loopEnabled = true ∧ notes ≠ [])

instance (notes : List Note) (s : PlayState) (now : ℚ) :
    Decidable (loopWrapFires notes s now) := by
  unfold loopWrapFires; infer_instance

instance (notes : List Note) (s : PlayState) (now : ℚ) :
    Decidable (hardStopFires notes s now) := by
  unfold hardStopFires; infer_instance

/-- draw (App.jsx lines 998-1056), restricted to a tick that passes the
frame-interval throttle (a throttled tick changes none of the modelled
state).  Loop wrap: clear landings, wrap the clock to zero, keep playing.
Hard stop: clamp to the stop limit, stop playing, render one final frame,
cancel the frame loop.  Otherwise: sync the playhead while playing and
render. -/
def draw (cfg : ViewCfg) (notes : List Note) (now : ℚ) (s : PlayState) :
    PlayState × List TriggerEvent × Option FrameMetrics :=
  if loopWrapFires notes s now then
    renderFrame cfg notes 0
      { s with landedAt := [], playhead := 0, prevT := 0, t0 := now }
  else if hardStopFires notes s now then
    let r := renderFrame cfg notes (stopLimit s)
      { s with isPlaying := false, playhead := stopLimit s }
    ({ r.1 with rafActive := false }, r.2.1, r.2.2)
  else
    let t := virtualTime s now
    renderFrame cfg notes t (if s.isPlaying then { s with playhead := t } else s)

/-- A sequence of epoch ticks: iterated renderFrame calls at the given
virtual times, with no intervening reset.  Returns the final state and the
concatenated trigger events. -/
def renderTicks (cfg : ViewCfg) (notes : List Note) : List ℚ → PlayState → PlayState × List TriggerEvent
  | [], s => (s, [])
  | t :: ts, s =>
    let r := renderFrame cfg notes t s
    let rest := renderTicks cfg notes ts r.1
    (rest.1, r.2.1 ++ rest.2)

/-- Number of trigger events carrying note id `id`. -/
def countId (id : ℕ) (evs : List TriggerEvent) : ℕ :=
  evs.countP (fun e => e.noteId == id)

/-- A-B repeat range state.  Modelled from the spec: the repository source
contains no RangeRepeatController implementation (src/src/App.jsx has no
repeat-range code); this follows the contract of spec section 4.5. -/
structure RepeatRange where
  a : Option ℚ
  b : Option ℚ
  enabled : Bool
deriving DecidableEq, Repr

/-- Rejection signal of the repeat-range controller.  Modelled from the
spec (section 7): `InvalidRangeError`. -/
inductive RepeatRangeError where
  | invalidRange
deriving DecidableEq, Repr

/-- Modelled from the spec: `setPointB(currentVirtualTime)` of the missing
RangeRepeatController "succeeds only if `currentVirtualTime > a`; otherwise
signals an `InvalidRangeError` (surfaced as a user-facing rejection, not a
crash)" with state unchanged.  The result pairs the (possibly unchanged)
state with an optional rejection. -/
def setPointB (r : RepeatRange) (t : ℚ) : RepeatRange × Option RepeatRangeError :=
  match r.a with
  | some a =>
    if a < t then ({ r with b := some t }, none)
    else (r, some RepeatRangeError.invalidRange)
  | none => (r, some RepeatRangeError.invalidRange)

/-! ## Claim C2: continuity of the playback clock under a rate change -/

/-- C2: for strictly positive rates `r1`, `r2`, re-anchoring on a rate
change while playing at virtual time `t` (with the playhead synced to `t`,
as the per-tick driver maintains) leaves the virtual time unchanged at the
instant of the change, installs the new rate, and advances at the new rate
afterwards. -/
theorem c2_rate_change_continuity (now t r1 r2 : ℚ) (s : PlayState)
    (_h1 : 0 < r1) (h2 : 0 < r2) (hp : s.isPlaying = true) (_hr : s.rate = r1)
    (hsync : s.playhead = t) (_hv : virtualTime s now = t) :
    virtualTime (setRate now r2 s) now = t ∧ (setRate now r2 s).rate = r2 ∧
      ∀ d : ℚ, virtualTime (setRate now r2 s) (now + d) = t + d * r2 := by
  have hr2 : r2 ≠ 0 := ne_of_gt h2
  refine ⟨?_, rfl, fun d => ?_⟩
  · simp only [virtualTime, setRate, hp, if_true, hsync]
    field_simp
  · simp only [virtualTime, setRate, hp, if_true, hsync]
    field_simp
    ring

/-- Witness for C2 at `now = 5`, `t = 2`, `r1 = 1`, `r2 = 1/2`. -/
theorem c2_rate_change_continuity_witness :
    (0 : ℚ) < 1 ∧ (0 : ℚ) < 1/2 ∧
      virtualTime (setRate 5 (1/2)
        ⟨2, 3, 1, 2, true, true, false, 10, none, []⟩) 5 = 2 := by
  refine ⟨by norm_num, by norm_num, ?_⟩
  exact (c2_rate_change_continuity 5 2 1 (1/2)
    ⟨2, 3, 1, 2, true, true, false, 10, none, []⟩
    (by norm_num) (by norm_num) rfl rfl rfl (by norm_num [virtualTime])).1

/-! ## Claim C5: pause immediately followed by play preserves virtual time -/

/-- C5: pausing (which freezes the current virtual time into the playhead)
and immediately playing again with no elapsed audio time reproduces the
pre-pause virtual time exactly, because play re-anchors with
`t0 = now - playhead / rate`. -/
theorem c5_pause_then_play (notes : List Note) (cfg : ViewCfg) (now : ℚ) (s : PlayState)
    (hr : s.rate ≠ 0) :
    virtualTime (play notes cfg now (pause now s)) now = virtualTime s now := by
  by_cases hn : notes = []
  · simp only [play, pause, virtualTime, hn, if_true]
    cases hsp : s.isPlaying <;> simp
  · simp only [play, pause, virtualTime, hn, if_false, if_neg hn]
    cases hsp : s.isPlaying <;>
      simp only [Bool.false_eq_true, if_false, if_true] <;> field_simp

/-- Witness for C5 with one note, `now = 7`, a playing state at virtual
time `(7 - 3) * (1/2) = 2`. -/
theorem c5_pause_then_play_witness :
    ((1 : ℚ)/2) ≠ 0 ∧
      virtualTime (play [⟨0, 60, 0, 1, 1⟩] ⟨280, 21, 108⟩ 7
        (pause 7 ⟨1, 3, 1/2, 1, true, true, false, 10, none, []⟩)) 7 =
        virtualTime ⟨1, 3, 1/2, 1, true, true, false, 10, none, []⟩ 7 := by
  refine ⟨by norm_num, ?_⟩
  exact c5_pause_then_play [⟨0, 60, 0, 1, 1⟩] ⟨280, 21, 108⟩ 7
    ⟨1, 3, 1/2, 1, true, true, false, 10, none, []⟩ (by norm_num)

/-! ## Claim C8: a B point not strictly after A is rejected, state unchanged -/

/-- C8: for every current repeat-range state with A set, assigning a B
point that is not strictly after A is rejected with `InvalidRangeError`
and the repeat-range state is returned unchanged. -/
theorem c8_point_b_not_after_a_rejected (r : RepeatRange) (a t : ℚ)
    (ha : r.a = some a) (hle : t ≤ a) :
    setPointB r t = (r, some RepeatRangeError.invalidRange) := by
  unfold setPointB
  rw [ha]
  simp [not_lt.mpr hle]

/-- Witness for C8 at the spec's example `a = 5`, `b = 3`. -/
theorem c8_point_b_not_after_a_rejected_witness :
    (⟨some 5, none, false⟩ : RepeatRange).a = some 5 ∧ (3 : ℚ) ≤ 5 ∧
      setPointB ⟨some 5, none, false⟩ 3 =
        (⟨some 5, none, false⟩, some RepeatRangeError.invalidRange) :=
  ⟨rfl, by norm_num,
    c8_point_b_not_after_a_rejected ⟨some 5, none, false⟩ 5 3 rfl (by norm_num)⟩

/-! ## Claim C9: the frame-cadence decision (corrected) -/

/-- C9 counterexample: with one drawn note and one note near the keyline
while playing, the code returns the medium interval, whereas the claim
("medium when few visible notes and none near the trigger line, fast
otherwise") demands the fast interval for this input. -/
theorem c9_frame_cadence_counterexample :
    determineFrameInterval true (some ⟨1, 1⟩) = MEDIUM_FRAME_INTERVAL ∧
      MEDIUM_FRAME_INTERVAL ≠ FAST_FRAME_INTERVAL := by
  constructor
  · rfl
  · norm_num [MEDIUM_FRAME_INTERVAL, FAST_FRAME_INTERVAL]

/-- C9 (amended): the cadence decision returns the slow interval when no
notes were drawn, the medium interval when fewer than six notes were drawn
and fewer than two are near the trigger line, and the fast display-rate
interval otherwise; when not playing or when metrics are absent it returns
the fast interval.  The three intervals are pairwise distinct. -/
theorem c9_frame_cadence :
    (∀ mo, determineFrameInterval false mo = FAST_FRAME_INTERVAL) ∧
    determineFrameInterval true none = FAST_FRAME_INTERVAL ∧
    (∀ m : FrameMetrics, m.drawnNotes = 0 →
      determineFrameInterval true (some m) = SLOW_FRAME_INTERVAL) ∧
    (∀ m : FrameMetrics, 0 < m.drawnNotes → m.drawnNotes < 6 → m.nearKeyline < 2 →
      determineFrameInterval true (some m) = MEDIUM_FRAME_INTERVAL) ∧
    (∀ m : FrameMetrics, 0 < m.drawnNotes → 6 ≤ m.drawnNotes ∨ 2 ≤ m.nearKeyline →
      determineFrameInterval true (some m) = FAST_FRAME_INTERVAL) ∧
    SLOW_FRAME_INTERVAL ≠ MEDIUM_FRAME_INTERVAL ∧
    MEDIUM_FRAME_INTERVAL ≠ FAST_FRAME_INTERVAL ∧
    SLOW_FRAME_INTERVAL ≠ FAST_FRAME_INTERVAL := by
  refine ⟨fun mo => rfl, rfl, fun m hm => ?_, fun m h1 h2 h3 => ?_, fun m h1 h2 => ?_,
    by norm_num [SLOW_FRAME_INTERVAL, MEDIUM_FRAME_INTERVAL],
    by norm_num [MEDIUM_FRAME_INTERVAL, FAST_FRAME_INTERVAL],
    by norm_num [SLOW_FRAME_INTERVAL, FAST_FRAME_INTERVAL]⟩
  · simp [determineFrameInterval, hm]
  · have h4 : ¬ m.drawnNotes ≤ 0 := by omega
    simp [determineFrameInterval, h4, h2, h3]
  · have h4 : ¬ m.drawnNotes ≤ 0 := by omega
    have h5 : ¬ (m.drawnNotes < 6 ∧ m.nearKeyline < 2) := by omega
    simp [determineFrameInterval, h4, h5]

/-- Witness for C9's amended theorem at metrics `(3, 1)` and `(0, 5)`. -/
theorem c9_frame_cadence_witness :
    determineFrameInterval true (some ⟨3, 1⟩) = MEDIUM_FRAME_INTERVAL ∧
      determineFrameInterval true (some ⟨0, 5⟩) = SLOW_FRAME_INTERVAL :=
  ⟨c9_frame_cadence.2.2.2.1 ⟨3, 1⟩ (by decide) (by decide) (by decide),
    c9_frame_cadence.2.2.1 ⟨0, 5⟩ rfl⟩

/-! ## Claim C4: the hard-stop branch of the tick -/

/-- C4: a playing tick that observes `t >= stopLimit - 1/60` with looping
disabled (or an empty note list) clamps the playhead to the stop limit,
sets `isPlaying` to false, renders one final frame, and cancels the
animation-frame loop; the loop-wrap branch and the hard-stop branch of a
single tick are mutually exclusive, and the loop stays cancelled until
play arms it again. -/
theorem c4_hard_stop (cfg : ViewCfg) (notes : List Note) (now : ℚ) (s : PlayState)
    (hp : s.isPlaying = true) (hnl : ¬(s.loopEnabled = true ∧ notes ≠ []))
    (hd : 0 ≤ s.duration) (hH : 0 < cfg.H)
    (ht : stopLimit s - 1/60 ≤ virtualTime s now) :
    (draw cfg notes now s).1.playhead = stopLimit s ∧
    (draw cfg notes now s).1.isPlaying = false ∧
    (draw cfg notes now s).1.rafActive = false ∧
    (draw cfg notes now s).2.2.isSome = true ∧
    (∀ (notes₀ : List Note) (s₀ : PlayState) (now₀ : ℚ),
      ¬(loopWrapFires notes₀ s₀ now₀ ∧ hardStopFires notes₀ s₀ now₀)) ∧
    (∀ now₂ : ℚ, notes ≠ [] → (play notes cfg now₂ (draw cfg notes now s).1).rafActive = true) := by
  have hlim : 0 < stopLimit s := by
    have h1 : 0 ≤ max s.duration (match s.endTime with | some v => v | none => 0) :=
      le_trans hd (le_max_left _ _)
    unfold stopLimit STOP_TAIL
    linarith
  have hw : ¬ loopWrapFires notes s now := fun h => hnl h.2.2.2
  have hs : hardStopFires notes s now := ⟨hp, hlim, ht, hnl⟩
  have hdraw : draw cfg notes now s =
      (let r := renderFrame cfg notes (stopLimit s)
        { s with isPlaying := false, playhead := stopLimit s }
       ({ r.1 with rafActive := false }, r.2.1, r.2.2)) := by
    unfold draw
    rw [if_neg hw, if_pos hs]
  rw [hdraw]
  unfold renderFrame
  rw [if_neg (not_le.mpr hH)]
  exact ⟨rfl, rfl, rfl, rfl,
    fun notes₀ s₀ now₀ h => h.2.2.2.2 h.1.2.2.2,
    fun now₂ hne => by simp [play, hne]⟩

/-- Witness for C4: one note, `duration = 1`, `stopLimit = 2`, a playing
non-looping state observing virtual time `2` at `now = 10`. -/
theorem c4_hard_stop_witness :
    (draw ⟨280, 21, 108⟩ [⟨0, 60, 0, 1, 9/10⟩] 10
        ⟨2, 8, 1, 2, true, true, false, 1, none, [(0, 1)]⟩).1.isPlaying = false ∧
      (draw ⟨280, 21, 108⟩ [⟨0, 60, 0, 1, 9/10⟩] 10
        ⟨2, 8, 1, 2, true, true, false, 1, none, [(0, 1)]⟩).1.playhead =
        stopLimit ⟨2, 8, 1, 2, true, true, false, 1, none, [(0, 1)]⟩ := by
  have h := c4_hard_stop ⟨280, 21, 108⟩ [⟨0, 60, 0, 1, 9/10⟩] 10
    ⟨2, 8, 1, 2, true, true, false, 1, none, [(0, 1)]⟩
    rfl (by simp) (by norm_num) (by norm_num)
    (by norm_num [stopLimit, STOP_TAIL, virtualTime])
  exact ⟨h.2.1, h.1⟩

/-! ## Claim C1: at most one trigger per note per landing epoch -/

/-- One when the note id is still absent from the landed map, zero once it
is recorded: the remaining trigger budget of the id. -/
def landedFlag (id : ℕ) (landed : List (ℕ × ℚ)) : ℕ :=
  if (landed.lookup id).isSome then 0 else 1

theorem countId_append_single (id : ℕ) (evs : List TriggerEvent) (e : TriggerEvent) :
    countId id (evs ++ [e]) = countId id evs + (if e.noteId = id then 1 else 0) := by
  unfold countId
  rw [List.countP_append]
  by_cases h : e.noteId = id <;> simp [List.countP_cons, h]

/-- The trigger budget bookkeeping of one scanned note: emitted events plus
the remaining budget are conserved by `stepNote`. -/
theorem stepNote_mu (cfg : ViewCfg) (tPrev t rate : ℚ) (playing : Bool)
    (acc : List (ℕ × ℚ) × List TriggerEvent × FrameMetrics) (n : Note) (id : ℕ) :
    countId id (stepNote cfg tPrev t rate playing acc n).2.1 +
        landedFlag id (stepNote cfg tPrev t rate playing acc n).1 =
      countId id acc.2.1 + landedFlag id acc.1 := by
  unfold stepNote
  by_cases hjl : justLanded cfg tPrev t playing acc.1 n = true
  · have habs : (acc.1.lookup n.i).isSome = false := by
      unfold justLanded at hjl
      simp only [Bool.and_eq_true, Bool.not_eq_true'] at hjl
      exact hjl.2
    rw [if_pos hjl, if_pos hjl]
    by_cases hid : n.i = id
    · subst hid
      rw [countId_append_single]
      unfold landedFlag
      simp [List.lookup_cons, habs]
    · rw [countId_append_single]
      have hbeq : (id == n.i) = false := by
        simp only [beq_eq_false_iff_ne]
        exact fun h => hid h.symm
      unfold landedFlag
      rw [List.lookup_cons, hbeq]
      simp [hid]
  · rw [if_neg hjl, if_neg hjl]

/-- Budget conservation over a whole scanned list. -/
theorem foldl_stepNote_mu (cfg : ViewCfg) (tPrev t rate : ℚ) (playing : Bool)
    (l : List Note) (acc : List (ℕ × ℚ) × List TriggerEvent × FrameMetrics) (id : ℕ) :
    countId id (l.foldl (stepNote cfg tPrev t rate playing) acc).2.1 +
        landedFlag id (l.foldl (stepNote cfg tPrev t rate playing) acc).1 =
      countId id acc.2.1 + landedFlag id acc.1 := by
  induction l generalizing acc with
  | nil => rfl
  | cons n tl ih =>
    rw [List.foldl_cons, ih, stepNote_mu]

/-- Budget conservation for one frame: the events of a frame plus the
budget of the output state equal the budget of the input state (a silent
frame when the canvas is not ready). -/
theorem renderFrame_mu (cfg : ViewCfg) (notes : List Note) (t : ℚ) (s : PlayState) (id : ℕ) :
    countId id (renderFrame cfg notes t s).2.1 +
        landedFlag id (renderFrame cfg notes t s).1.landedAt =
      landedFlag id s.landedAt := by
  unfold renderFrame
  by_cases hH : cfg.H ≤ 0
  · rw [if_pos hH]
    simp [countId]
  · rw [if_neg hH]
    have h := foldl_stepNote_mu cfg s.prevT t s.rate s.isPlaying
      (visibleScan notes (t - lookBack cfg.H) (t + lookAhead cfg.H))
      (s.landedAt, [], ⟨0, 0⟩) id
    simpa [countId] using h

/-- C1: over any sequence of frame ticks within one landing epoch (no
intervening reset), the audio trigger for any given note id is invoked at
most once, no matter how many ticks observe the note inside the trigger
window: a tick fires only when the id is absent from the landed-note map
and records the id there on firing. -/
theorem c1_at_most_once_trigger (cfg : ViewCfg) (notes : List Note)
    (times : List ℚ) (s : PlayState) (id : ℕ) :
    countId id (renderTicks cfg notes times s).2 ≤ 1 := by
  suffices h : ∀ (ts : List ℚ) (s : PlayState),
      countId id (renderTicks cfg notes ts s).2 +
        landedFlag id (renderTicks cfg notes ts s).1.landedAt = landedFlag id s.landedAt by
    have h2 := h times s
    have h3 : landedFlag id s.landedAt ≤ 1 := by
      unfold landedFlag
      split <;> omega
    omega
  intro ts
  induction ts with
  | nil => intro s; simp [renderTicks, countId]
  | cons t tl ih =>
    intro s
    show countId id ((renderFrame cfg notes t s).2.1 ++
          (renderTicks cfg notes tl (renderFrame cfg notes t s).1).2) + _ = _
    rw [show ∀ a b : List TriggerEvent, countId id (a ++ b) = countId id a + countId id b from
      fun a b => List.countP_append _ a b]
    have h1 := renderFrame_mu cfg notes t s id
    have h2 := ih (renderFrame cfg notes t s).1
    simp only [renderTicks] at h2 ⊢
    omega

/-! ## Claim C6: correctness of the lower-bound search and window scan -/

/-- Index form of sortedness used by the binary-search proof. -/
def sortedIdx (arr : List ℚ) : Prop :=
  ∀ i j, i ≤ j → j < arr.length → arr.getD i 0 ≤ arr.getD j 0

theorem sortedIdx_of_pairwise (arr : List ℚ) (h : arr.Pairwise (· ≤ ·)) : sortedIdx arr := by
  intro i j hij hj
  have hi : i < arr.length := lt_of_le_of_lt hij hj
  rw [List.getD_eq_getElem arr 0 hi, List.getD_eq_getElem arr 0 hj]
  rcases Nat.eq_or_lt_of_le hij with h1 | h1
  · subst h1; rfl
  · exact List.pairwise_iff_getElem.mp h i j hi hj h1

/-- Correctness of the binary-search loop: starting from a bracket
`[lo, hi]` whose outside already satisfies the boundary invariants, the
loop returns the boundary position between the elements below `x` and the
rest. -/
theorem lbAux_spec (arr : List ℚ) (x : ℚ) (hs : sortedIdx arr) :
    ∀ (n lo hi : ℕ), hi - lo ≤ n → lo ≤ hi → hi ≤ arr.length →
      (∀ i, i < lo → arr.getD i 0 < x) →
      (∀ i, hi ≤ i → i < arr.length → ¬ arr.getD i 0 < x) →
      lo ≤ lbAux arr x lo hi ∧ lbAux arr x lo hi ≤ hi ∧
        (∀ i, i < lbAux arr x lo hi → arr.getD i 0 < x) ∧
        (∀ i, lbAux arr x lo hi ≤ i → i < arr.length → ¬ arr.getD i 0 < x) := by
  intro n
  induction n with
  | zero =>
    intro lo hi hn hlh hlen h1 h2
    have heq : lo = hi := by omega
    subst heq
    rw [lbAux]
    simp only [lt_irrefl, dite_false]
    exact ⟨le_refl _, le_refl _, h1, h2⟩
  | succ n ih =>
    intro lo hi hn hlh hlen h1 h2
    rw [lbAux]
    by_cases hlt : lo < hi
    · rw [dif_pos hlt]
      have hm1 : lo ≤ (lo + hi) / 2 := by omega
      have hm2 : (lo + hi) / 2 < hi := by omega
      have hmlen : (lo + hi) / 2 < arr.length := lt_of_lt_of_le hm2 hlen
      by_cases hmid : arr.getD ((lo + hi) / 2) 0 < x
      · rw [if_pos hmid]
        have h1' : ∀ i, i < (lo + hi) / 2 + 1 → arr.getD i 0 < x := by
          intro i hi2
          by_cases hilo : i < lo
          · exact h1 i hilo
          · exact lt_of_le_of_lt (hs i ((lo + hi) / 2) (by omega) hmlen) hmid
        have hrec := ih ((lo + hi) / 2 + 1) hi (by omega) (by omega) hlen h1' h2
        exact ⟨le_trans (by omega) hrec.1, hrec.2.1, hrec.2.2.1, hrec.2.2.2⟩
      · rw [if_neg hmid]
        have h2' : ∀ i, (lo + hi) / 2 ≤ i → i < arr.length → ¬ arr.getD i 0 < x := by
          intro i hi2 hi3 hcon
          exact hmid (lt_of_le_of_lt (hs ((lo + hi) / 2) i hi2 hi3) hcon)
        have hrec := ih lo ((lo + hi) / 2) (by omega) (by omega) (by omega) h1 h2'
        exact ⟨hrec.1, le_trans hrec.2.1 (by omega), hrec.2.2.1, hrec.2.2.2⟩
    · rw [dif_neg hlt]
      have heq : lo = hi := by omega
      exact ⟨le_refl _, by omega, h1, fun i hi1 hi2 => h2 i (heq ▸ hi1) hi2⟩

/-- Specification of lowerBound on a sorted array: it is the boundary
between the prefix of elements strictly below `x` and the suffix of
elements at or above `x`; in particular it is the smallest index whose
element is at or above `x`. -/
theorem lowerBound_spec (arr : List ℚ) (x : ℚ) (h : arr.Pairwise (· ≤ ·)) :
    lowerBound arr x ≤ arr.length ∧
      (∀ i, i < lowerBound arr x → arr.getD i 0 < x) ∧
      (∀ i, lowerBound arr x ≤ i → i < arr.length → x ≤ arr.getD i 0) := by
  have hs := sortedIdx_of_pairwise arr h
  have hr := lbAux_spec arr x hs arr.length 0 arr.length (by omega) (by omega) (le_refl _)
    (fun i hi => absurd hi (Nat.not_lt_zero i))
    (fun i hi1 hi2 => absurd (lt_of_le_of_lt hi1 hi2) (lt_irrefl arr.length))
  exact ⟨hr.2.1, hr.2.2.1, fun i h1 h2 => not_lt.mp (hr.2.2.2 i h1 h2)⟩

/-- A list whose first `r` positions fail `p` and whose remaining positions
satisfy `p` has `drop r` as its filtering. -/
theorem filter_eq_drop_of_split {α : Type} (p : α → Bool) (l : List α) (r : ℕ) (d : α)
    (hr : r ≤ l.length)
    (h1 : ∀ i, i < r → ∀ h : i < l.length, p (l.getD i d) = false)
    (h2 : ∀ i, r ≤ i → ∀ h : i < l.length, p (l.getD i d) = true) :
    l.filter p = l.drop r := by
  conv_lhs => rw [← List.take_append_drop r l, List.filter_append]
  have htake : (l.take r).filter p = [] := by
    rw [List.filter_eq_nil]
    intro a ha
    rcases List.mem_iff_getElem.mp ha with ⟨i, hilen, hieq⟩
    have hir : i < r := by
      have hlt := hilen
      rw [List.length_take] at hlt
      omega
    have hil : i < l.length := lt_of_lt_of_le hir hr
    have : a = l.getD i d := by
      rw [List.getD_eq_getElem l d hil, ← hieq, List.getElem_take]
    rw [this, h1 i hir hil]
    simp
  have hdrop : (l.drop r).filter p = l.drop r := by
    rw [List.filter_eq_self]
    intro a ha
    rcases List.mem_iff_getElem.mp ha with ⟨i, hilen, hieq⟩
    have hil : r + i < l.length := by
      have := List.length_drop r l
      omega
    have : a = l.getD (r + i) d := by
      rw [List.getD_eq_getElem l d hil, ← hieq, List.getElem_drop]
    rw [this, h2 (r + i) (by omega) hil]
  rw [htake, hdrop, List.nil_append]

/-- On a list sorted by start, the scan cutoff `takeWhile (start <= we)`
keeps exactly the notes with `start <= we`. -/
theorem takeWhile_start_eq_filter (we : ℚ) :
    ∀ (l : List Note), SortedByStart l →
      l.takeWhile (fun n => decide (n.start ≤ we)) =
        l.filter (fun n => decide (n.start ≤ we)) := by
  intro l
  induction l with
  | nil => intro _; rfl
  | cons a tl ih =>
    intro hs
    rcases List.pairwise_cons.mp hs with ⟨ha, htl⟩
    by_cases hle : a.start ≤ we
    · have hd : decide (a.start ≤ we) = true := decide_eq_true hle
      simp only [List.takeWhile_cons, List.filter_cons, hd]
      simp [ih htl]
    · have hd : decide (a.start ≤ we) = false := decide_eq_false hle
      have hnil : tl.filter (fun n => decide (n.start ≤ we)) = [] := by
        rw [List.filter_eq_nil]
        intro b hb
        simp only [decide_eq_true_eq]
        intro hcon
        exact hle (le_trans (ha b hb) hcon)
      simp only [List.takeWhile_cons, List.filter_cons, hd]
      simp [hnil]

/-- Default note used only as the `getD` placeholder in index reasoning. -/
def dNote : Note := ⟨0, 0, 0, 0, 0⟩

/-- The window scan, characterised: on a note list sorted ascending by
start, the scan starting at the lower-bound index for `ws` and walking
while `start <= we` visits exactly the notes with `start` in `[ws, we]`. -/
theorem visibleScan_eq_filter (notes : List Note) (ws we : ℚ) (hs : SortedByStart notes) :
    visibleScan notes ws we =
      notes.filter (fun n => decide (ws ≤ n.start) && decide (n.start ≤ we)) := by
  have hmap : (notes.map (·.start)).Pairwise (· ≤ ·) := by
    rw [List.pairwise_map]
    exact hs
  have hspec := lowerBound_spec (notes.map (·.start)) ws hmap
  set r := lowerBound (notes.map (·.start)) ws with hr
  have hrlen : r ≤ notes.length := by
    have := hspec.1
    simpa using this
  have hget : ∀ i, ∀ h : i < notes.length, (notes.map (·.start)).getD i 0 = (notes.getD i dNote).start := by
    intro i h
    rw [List.getD_eq_getElem _ 0 (by simpa using h), List.getD_eq_getElem _ dNote h,
      List.getElem_map]
  have hdrop : notes.filter (fun n => decide (ws ≤ n.start)) = notes.drop r := by
    apply filter_eq_drop_of_split _ _ _ dNote hrlen
    · intro i hir hil
      have hws := hspec.2.1 i hir
      rw [hget i hil] at hws
      show decide (ws ≤ (notes.getD i dNote).start) = false
      exact decide_eq_false (not_le.mpr hws)
    · intro i hir hil
      have hws := hspec.2.2 i hir (by simpa using hil)
      rw [hget i hil] at hws
      show decide (ws ≤ (notes.getD i dNote).start) = true
      exact decide_eq_true hws
  have hsorted_drop : SortedByStart (notes.drop r) :=
    List.Pairwise.sublist (List.drop_sublist r notes) hs
  unfold visibleScan
  rw [← hr, takeWhile_start_eq_filter we _ hsorted_drop, ← hdrop, List.filter_filter]
  apply List.filter_congr
  intro n _
  rw [Bool.and_comm]

/-- C6: for every note list sorted ascending by start and every window,
the per-frame scan that begins at the lower-bound index and walks while
`start <= winEnd` visits exactly the notes whose start lies in
`[winStart, winEnd]`, in ascending start order. -/
theorem c6_visible_window_scan (notes : List Note) (ws we : ℚ) (hs : SortedByStart notes) :
    visibleScan notes ws we =
      notes.filter (fun n => decide (ws ≤ n.start) && decide (n.start ≤ we)) ∧
    SortedByStart (visibleScan notes ws we) := by
  refine ⟨visibleScan_eq_filter notes ws we hs, ?_⟩
  rw [visibleScan_eq_filter notes ws we hs]
  exact List.Pairwise.filter _ hs

/-- Witness for C6 at starts `[0, 2, 4, 6, 8]` and window `[3, 7]`: the
scan visits exactly the notes with start 4 and 6. -/
theorem c6_visible_window_scan_witness :
    SortedByStart
      [⟨0, 60, 0, 1, 1⟩, ⟨1, 62, 2, 3, 1⟩, ⟨2, 64, 4, 5, 1⟩, ⟨3, 65, 6, 7, 1⟩, ⟨4, 67, 8, 9, 1⟩] ∧
    visibleScan
      [⟨0, 60, 0, 1, 1⟩, ⟨1, 62, 2, 3, 1⟩, ⟨2, 64, 4, 5, 1⟩, ⟨3, 65, 6, 7, 1⟩, ⟨4, 67, 8, 9, 1⟩]
      3 7 = [⟨2, 64, 4, 5, 1⟩, ⟨3, 65, 6, 7, 1⟩] := by
  have hs : SortedByStart
      [⟨0, 60, 0, 1, 1⟩, ⟨1, 62, 2, 3, 1⟩, ⟨2, 64, 4, 5, 1⟩, ⟨3, 65, 6, 7, 1⟩, ⟨4, 67, 8, 9, 1⟩] := by
    unfold SortedByStart startLE
    norm_num [List.pairwise_cons]
  refine ⟨hs, ?_⟩
  have h := (c6_visible_window_scan _ 3 7 hs).1
  rw [h]
  norm_num [List.filter]

/-! ## Claim C10: the installed note array is the merged, sorted, reindexed list -/

theorem length_assignIdsFrom (k : ℕ) (l : List Note) :
    (assignIdsFrom k l).length = l.length := by
  induction l generalizing k with
  | nil => rfl
  | cons n tl ih => simp [assignIdsFrom, ih]

theorem map_start_assignIdsFrom (k : ℕ) (l : List Note) :
    (assignIdsFrom k l).map (·.start) = l.map (·.start) := by
  induction l generalizing k with
  | nil => rfl
  | cons n tl ih => simp [assignIdsFrom, ih]

theorem map_i_assignIdsFrom (k : ℕ) (l : List Note) :
    (assignIdsFrom k l).map (·.i) = List.range' k l.length := by
  induction l generalizing k with
  | nil => rfl
  | cons n tl ih => simp [assignIdsFrom, ih, List.range']

theorem sortedByStart_iff_map (l : List Note) :
    SortedByStart l ↔ (l.map (·.start)).Pairwise (· ≤ ·) := by
  rw [List.pairwise_map]
  exact Iff.rfl

theorem sortedByStart_assignIdsFrom (k : ℕ) (l : List Note) (h : SortedByStart l) :
    SortedByStart (assignIdsFrom k l) := by
  rw [sortedByStart_iff_map, map_start_assignIdsFrom]
  exact (sortedByStart_iff_map l).mp h

theorem sortedByStart_sortByStart (l : List Note) : SortedByStart (sortByStart l) :=
  List.sorted_insertionSort startLE l

/-- C10: the note array installed on song load is the output of the
per-pitch merging pass applied to the start-sorted parse, the merge step
fuses two same-pitch neighbours whose gap lies in [-0.001, gap] into one
note with the larger end and the larger velocity, and the installed array
is sorted ascending by start with each element's id equal to its array
index. -/
theorem c10_installed_notes (flat : List Note) (gap : ℚ) (a b : Note) :
    installedNotes flat = mergeConsecutiveNotes (sortByStart flat) VISUAL_MERGE_GAP ∧
    SortedByStart (installedNotes flat) ∧
    (installedNotes flat).map (·.i) = List.range (installedNotes flat).length ∧
    (-(1/1000) ≤ b.start - a.endSec → b.start - a.endSec ≤ gap →
      mergeGroup gap [a, b] =
        [{ a with endSec := max a.endSec b.endSec, vel := max a.vel b.vel }]) := by
  refine ⟨rfl, ?_, ?_, ?_⟩
  · unfold installedNotes mergeConsecutiveNotes
    by_cases h : sortByStart flat = []
    · simp [h, SortedByStart]
    · rw [if_neg h]
      exact sortedByStart_assignIdsFrom 0 _ (sortedByStart_sortByStart _)
  · unfold installedNotes mergeConsecutiveNotes
    by_cases h : sortByStart flat = []
    · simp [h]
    · rw [if_neg h, map_i_assignIdsFrom, length_assignIdsFrom, List.range_eq_range']
  · intro h1 h2
    unfold mergeGroup mergeGroupAux
    rw [if_pos ⟨h1, h2⟩]
    rfl

/-- Witness for C10: two same-pitch notes `[0,1]` and `[1.02,2]` (gap
`0.02`) fuse into `[0,2]`; a mixed three-note parse installs as a merged,
reindexed, start-sorted pair. -/
theorem c10_installed_notes_witness :
    ((-(1/1000) : ℚ) ≤ (102/100 : ℚ) - 1 ∧ (102/100 : ℚ) - 1 ≤ 6/100) ∧
    mergeGroup (6/100) [⟨0, 60, 0, 1, 1⟩, ⟨1, 60, 102/100, 2, 1⟩] = [⟨0, 60, 0, 2, 1⟩] ∧
    SortedByStart (installedNotes [⟨0, 60, 0, 1, 1⟩, ⟨1, 62, 1/2, 3/2, 1⟩, ⟨2, 60, 102/100, 2, 1⟩]) ∧
    (installedNotes [⟨0, 60, 0, 1, 1⟩, ⟨1, 62, 1/2, 3/2, 1⟩, ⟨2, 60, 102/100, 2, 1⟩]).map (·.i) =
      List.range (installedNotes [⟨0, 60, 0, 1, 1⟩, ⟨1, 62, 1/2, 3/2, 1⟩, ⟨2, 60, 102/100, 2, 1⟩]).length := by
  have h := c10_installed_notes [⟨0, 60, 0, 1, 1⟩, ⟨1, 62, 1/2, 3/2, 1⟩, ⟨2, 60, 102/100, 2, 1⟩]
    (6/100) ⟨0, 60, 0, 1, 1⟩ ⟨1, 60, 102/100, 2, 1⟩
  refine ⟨⟨by norm_num, by norm_num⟩, ?_, h.2.1, h.2.2.1⟩
  have hfuse := h.2.2.2 (by norm_num) (by norm_num)
  rw [hfuse]
  norm_num [max_def]

/-! ## Shared facts about renderFrame and draw used by the loop-wrap and
stop/replay claims -/

theorem yBottomAt_eq (t : ℚ) (n : Note) : yBottomAt t n = (t - n.start) * SPEED := by
  unfold yBottomAt
  ring

theorem noteCrossed_iff (cfg : ViewCfg) (tPrev t : ℚ) (n : Note) :
    noteCrossed cfg tPrev t n = true ↔
      (tPrev - n.start) * SPEED < cfg.H - KB_HEIGHT ∧
        cfg.H - KB_HEIGHT ≤ (t - n.start) * SPEED := by
  unfold noteCrossed
  rw [yBottomAt_eq, yBottomAt_eq]
  simp

theorem noteCrossed_self (cfg : ViewCfg) (t : ℚ) (n : Note) :
    noteCrossed cfg t t n = false := by
  rw [Bool.eq_false_iff]
  intro h
  rcases (noteCrossed_iff cfg t t n).mp h with ⟨h1, h2⟩
  exact absurd (lt_of_le_of_lt h2 h1) (lt_irrefl _)

theorem stepNote_self (cfg : ViewCfg) (t rate : ℚ) (playing : Bool)
    (acc : List (ℕ × ℚ) × List TriggerEvent × FrameMetrics) (n : Note) :
    (stepNote cfg t t rate playing acc n).1 = acc.1 ∧
      (stepNote cfg t t rate playing acc n).2.1 = acc.2.1 := by
  have hjl : justLanded cfg t t playing acc.1 n = false := by
    unfold justLanded
    rw [noteCrossed_self]
    simp
  unfold stepNote
  rw [if_neg (by simp [hjl]), if_neg (by simp [hjl])]
  exact ⟨rfl, rfl⟩

theorem foldl_stepNote_self (cfg : ViewCfg) (t rate : ℚ) (playing : Bool) (l : List Note) :
    ∀ acc, (l.foldl (stepNote cfg t t rate playing) acc).1 = acc.1 ∧
      (l.foldl (stepNote cfg t t rate playing) acc).2.1 = acc.2.1 := by
  induction l with
  | nil => intro acc; exact ⟨rfl, rfl⟩
  | cons m tl ih =>
    intro acc
    rw [List.foldl_cons]
    rcases ih (stepNote cfg t t rate playing acc m) with ⟨h1, h2⟩
    rcases stepNote_self cfg t rate playing acc m with ⟨h3, h4⟩
    exact ⟨h1.trans h3, h2.trans h4⟩

/-- A frame rendered at the previous frame's time detects no crossing:
the landed map is unchanged and no trigger fires. -/
theorem renderFrame_self (cfg : ViewCfg) (notes : List Note) (t : ℚ) (s : PlayState)
    (h : s.prevT = t) :
    (renderFrame cfg notes t s).1.landedAt = s.landedAt ∧
      (renderFrame cfg notes t s).2.1 = [] := by
  unfold renderFrame
  by_cases hH : cfg.H ≤ 0
  · rw [if_pos hH]
    exact ⟨rfl, rfl⟩
  · rw [if_neg hH, h]
    rcases foldl_stepNote_self cfg t s.rate s.isPlaying
      (visibleScan notes (t - lookBack cfg.H) (t + lookAhead cfg.H))
      (s.landedAt, [], ⟨0, 0⟩) with ⟨h1, h2⟩
    exact ⟨h1, h2⟩

theorem renderFrame_fields (cfg : ViewCfg) (notes : List Note) (t : ℚ) (s : PlayState) :
    (renderFrame cfg notes t s).1.playhead = s.playhead ∧
    (renderFrame cfg notes t s).1.t0 = s.t0 ∧
    (renderFrame cfg notes t s).1.rate = s.rate ∧
    (renderFrame cfg notes t s).1.isPlaying = s.isPlaying ∧
    (renderFrame cfg notes t s).1.rafActive = s.rafActive ∧
    (renderFrame cfg notes t s).1.loopEnabled = s.loopEnabled ∧
    (renderFrame cfg notes t s).1.duration = s.duration ∧
    (renderFrame cfg notes t s).1.endTime = s.endTime := by
  unfold renderFrame
  by_cases hH : cfg.H ≤ 0
  · rw [if_pos hH]
    exact ⟨rfl, rfl, rfl, rfl, rfl, rfl, rfl, rfl⟩
  · rw [if_neg hH]
    exact ⟨rfl, rfl, rfl, rfl, rfl, rfl, rfl, rfl⟩

theorem renderFrame_prevT (cfg : ViewCfg) (notes : List Note) (t : ℚ) (s : PlayState)
    (h : s.prevT = t) : (renderFrame cfg notes t s).1.prevT = t := by
  unfold renderFrame
  by_cases hH : cfg.H ≤ 0
  · rw [if_pos hH]
    exact h
  · rw [if_neg hH]

theorem stopLimit_congr (s s' : PlayState) (h1 : s'.duration = s.duration)
    (h2 : s'.endTime = s.endTime) : stopLimit s' = stopLimit s := by
  unfold stopLimit
  rw [h1, h2]

theorem foldl_evs_mono (cfg : ViewCfg) (tPrev t rate : ℚ) (playing : Bool) (l : List Note) :
    ∀ acc (e : TriggerEvent), e ∈ acc.2.1 →
      e ∈ (l.foldl (stepNote cfg tPrev t rate playing) acc).2.1 := by
  induction l with
  | nil => intro acc e he; exact he
  | cons m tl ih =>
    intro acc e he
    rw [List.foldl_cons]
    apply ih
    by_cases hjl : justLanded cfg tPrev t playing acc.1 m = true
    · have heq : (stepNote cfg tPrev t rate playing acc m).2.1 =
          acc.2.1 ++ [⟨m.i, m.midi, max (1/20) ((m.endSec - m.start) / rate), m.vel⟩] := by
        simp [stepNote, hjl]
      rw [heq]
      exact List.mem_append_left _ he
    · have heq : (stepNote cfg tPrev t rate playing acc m).2.1 = acc.2.1 := by
        simp [stepNote, hjl]
      rw [heq]
      exact he

/-- If a note with a still-unlanded id is in the scanned list (with
pairwise distinct ids) and its edge crosses, the scan fires its trigger. -/
theorem foldl_fires (cfg : ViewCfg) (tPrev t rate : ℚ) (n : Note) :
    ∀ (l : List Note), n ∈ l → (l.map (·.i)).Nodup →
      ∀ acc : List (ℕ × ℚ) × List TriggerEvent × FrameMetrics,
        acc.1.lookup n.i = none →
        noteCrossed cfg tPrev t n = true →
        ∃ e ∈ (l.foldl (stepNote cfg tPrev t rate true) acc).2.1,
          e.noteId = n.i ∧ e.midi = n.midi := by
  intro l
  induction l with
  | nil => intro hmem; exact absurd hmem (List.not_mem_nil n)
  | cons m tl ih =>
    intro hmem hnd acc habs hcross
    rw [List.foldl_cons]
    rcases List.mem_cons.mp hmem with heq | hmemtl
    · subst heq
      have hjl : justLanded cfg tPrev t true acc.1 n = true := by
        unfold justLanded
        rw [hcross, habs]
        rfl
      have hev : (⟨n.i, n.midi, max (1/20) ((n.endSec - n.start) / rate), n.vel⟩ : TriggerEvent)
          ∈ (stepNote cfg tPrev t rate true acc n).2.1 := by
        have heq : (stepNote cfg tPrev t rate true acc n).2.1 =
            acc.2.1 ++ [⟨n.i, n.midi, max (1/20) ((n.endSec - n.start) / rate), n.vel⟩] := by
          simp [stepNote, hjl]
        rw [heq]
        exact List.mem_append_right _ (List.mem_singleton_self _)
      exact ⟨_, foldl_evs_mono cfg tPrev t rate true tl _ _ hev, rfl, rfl⟩
    · have hnd' : (tl.map (·.i)).Nodup := (List.nodup_cons.mp (by simpa using hnd)).2
      have hmi : m.i ≠ n.i := by
        intro hcon
        have h1 : n.i ∈ tl.map (·.i) := List.mem_map_of_mem _ hmemtl
        have h2 : m.i ∉ tl.map (·.i) := (List.nodup_cons.mp (by simpa using hnd)).1
        exact h2 (hcon ▸ h1)
      apply ih hmemtl hnd' _ _ hcross
      by_cases hjl : justLanded cfg tPrev t true acc.1 m = true
      · have heq : (stepNote cfg tPrev t rate true acc m).1 = (m.i, t) :: acc.1 := by
          simp [stepNote, hjl]
        rw [heq]
        have hbeq : (n.i == m.i) = false := by
          simp only [beq_eq_false_iff_ne]
          exact fun h => hmi h.symm
        rw [List.lookup_cons, hbeq]
        exact habs
      · have heq : (stepNote cfg tPrev t rate true acc m).1 = acc.1 := by
          simp [stepNote, hjl]
        rw [heq]
        exact habs

/-- Firing a replayable note through one full draw tick from a fresh
playing state: the landed map is empty, the stop-limit check does not
trip, the note is inside the scan window, and its edge crosses the
keyline between the previous frame and this one. -/
theorem draw_fires_fresh (cfg : ViewCfg) (notes : List Note) (now2 : ℚ) (s' : PlayState)
    (n : Note)
    (hp : s'.isPlaying = true) (hland : s'.landedAt = []) (hH : 0 < cfg.H)
    (hlt : virtualTime s' now2 < stopLimit s' - 1/60)
    (hsorted : SortedByStart notes) (hnd : (notes.map (·.i)).Nodup) (hmem : n ∈ notes)
    (hwin1 : virtualTime s' now2 - lookBack cfg.H ≤ n.start)
    (hwin2 : n.start ≤ virtualTime s' now2 + lookAhead cfg.H)
    (hcross1 : (s'.prevT - n.start) * SPEED < cfg.H - KB_HEIGHT)
    (hcross2 : cfg.H - KB_HEIGHT ≤ (virtualTime s' now2 - n.start) * SPEED) :
    ∃ e ∈ (draw cfg notes now2 s').2.1, e.noteId = n.i ∧ e.midi = n.midi := by
  have hnw : ¬ loopWrapFires notes s' now2 := by
    intro h
    exact absurd (lt_of_le_of_lt h.2.2.1 hlt) (lt_irrefl _)
  have hns : ¬ hardStopFires notes s' now2 := by
    intro h
    exact absurd (lt_of_le_of_lt h.2.2.1 hlt) (lt_irrefl _)
  have hdraw : draw cfg notes now2 s' =
      renderFrame cfg notes (virtualTime s' now2)
        (if s'.isPlaying then { s' with playhead := virtualTime s' now2 } else s') := by
    unfold draw
    rw [if_neg hnw, if_neg hns]
  rw [hdraw, hp]
  simp only [if_true]
  set t2 := virtualTime s' now2 with ht2
  set s2 : PlayState := { s' with playhead := t2 } with hs2
  have hHn : ¬ cfg.H ≤ 0 := not_le.mpr hH
  unfold renderFrame
  rw [if_neg hHn]
  have hscan : visibleScan notes (t2 - lookBack cfg.H) (t2 + lookAhead cfg.H) =
      notes.filter (fun m => decide (t2 - lookBack cfg.H ≤ m.start) &&
        decide (m.start ≤ t2 + lookAhead cfg.H)) :=
    visibleScan_eq_filter notes _ _ hsorted
  have hmem2 : n ∈ visibleScan notes (t2 - lookBack cfg.H) (t2 + lookAhead cfg.H) := by
    rw [hscan]
    rw [List.mem_filter]
    refine ⟨hmem, ?_⟩
    rw [Bool.and_eq_true]
    exact ⟨decide_eq_true hwin1, decide_eq_true hwin2⟩
  have hnd2 : ((visibleScan notes (t2 - lookBack cfg.H) (t2 + lookAhead cfg.H)).map (·.i)).Nodup := by
    rw [hscan]
    exact List.Nodup.sublist (List.Sublist.map _ (List.filter_sublist notes)) hnd
  have hcross : noteCrossed cfg s2.prevT t2 n = true := by
    apply (noteCrossed_iff cfg s2.prevT t2 n).mpr
    exact ⟨hcross1, hcross2⟩
  have hfold := foldl_fires cfg s2.prevT t2 s2.rate n
    (visibleScan notes (t2 - lookBack cfg.H) (t2 + lookAhead cfg.H)) hmem2 hnd2
    (s2.landedAt, [], ⟨0, 0⟩) (by show List.lookup n.i s2.landedAt = none; rw [hs2]; simp [hland])
    hcross
  exact hfold

theorem stopLimit_pos (s : PlayState) (hd : 0 ≤ s.duration) : 0 < stopLimit s := by
  have h1 : 0 ≤ max s.duration (match s.endTime with | some v => v | none => 0) :=
    le_trans hd (le_max_left _ _)
  unfold stopLimit STOP_TAIL
  linarith

/-! ## Claim C3: the loop-wrap branch of the tick -/

/-- C3: a playing tick with looping enabled and a non-empty note list that
observes `t >= stopLimit - 1/60` clears every landing record, sets the
playhead to 0, re-anchors the clock at the current audio time (so virtual
time restarts from 0), keeps playing, and fires no trigger during the wrap
frame itself; because the landed map was cleared, any note of the song
(including the first) fires again on a later tick of the new pass whose
frame crosses its edge. -/
theorem c3_loop_wrap (cfg : ViewCfg) (notes : List Note) (now : ℚ) (s : PlayState)
    (hp : s.isPlaying = true) (hl : s.loopEnabled = true) (hne : notes ≠ [])
    (hd : 0 ≤ s.duration)
    (ht : stopLimit s - 1/60 ≤ virtualTime s now) :
    (draw cfg notes now s).1.landedAt = [] ∧
    (draw cfg notes now s).1.playhead = 0 ∧
    (draw cfg notes now s).1.t0 = now ∧
    (draw cfg notes now s).1.isPlaying = true ∧
    (draw cfg notes now s).1.rate = s.rate ∧
    (draw cfg notes now s).1.prevT = 0 ∧
    virtualTime (draw cfg notes now s).1 now = 0 ∧
    (draw cfg notes now s).2.1 = [] ∧
    (∀ (n : Note) (now2 : ℚ),
      SortedByStart notes → (notes.map (·.i)).Nodup → n ∈ notes → 0 < cfg.H →
      virtualTime (draw cfg notes now s).1 now2 < stopLimit s - 1/60 →
      virtualTime (draw cfg notes now s).1 now2 - lookBack cfg.H ≤ n.start →
      n.start ≤ virtualTime (draw cfg notes now s).1 now2 + lookAhead cfg.H →
      ((draw cfg notes now s).1.prevT - n.start) * SPEED < cfg.H - KB_HEIGHT →
      cfg.H - KB_HEIGHT ≤ (virtualTime (draw cfg notes now s).1 now2 - n.start) * SPEED →
      ∃ e ∈ (draw cfg notes now2 (draw cfg notes now s).1).2.1,
        e.noteId = n.i ∧ e.midi = n.midi) := by
  have hlim : 0 < stopLimit s := stopLimit_pos s hd
  have hw : loopWrapFires notes s now := ⟨hp, hlim, ht, hl, hne⟩
  have hdraw : draw cfg notes now s =
      renderFrame cfg notes 0 { s with landedAt := [], playhead := 0, prevT := 0, t0 := now } := by
    unfold draw
    rw [if_pos hw]
  rcases renderFrame_self cfg notes 0
    { s with landedAt := [], playhead := 0, prevT := 0, t0 := now } rfl with ⟨hA, hB⟩
  rcases renderFrame_fields cfg notes 0
    { s with landedAt := [], playhead := 0, prevT := 0, t0 := now } with
    ⟨hf1, hf2, hf3, hf4, -, -, hf7, hf8⟩
  have hprev := renderFrame_prevT cfg notes 0
    { s with landedAt := [], playhead := 0, prevT := 0, t0 := now } rfl
  have c1 : (draw cfg notes now s).1.landedAt = [] := by rw [hdraw, hA]
  have c2 : (draw cfg notes now s).1.playhead = 0 := by rw [hdraw, hf1]
  have c3 : (draw cfg notes now s).1.t0 = now := by rw [hdraw, hf2]
  have c4 : (draw cfg notes now s).1.isPlaying = true := by rw [hdraw, hf4]; exact hp
  have c5 : (draw cfg notes now s).1.rate = s.rate := by rw [hdraw, hf3]
  have c6 : (draw cfg notes now s).1.prevT = 0 := by rw [hdraw]; exact hprev
  have c7 : virtualTime (draw cfg notes now s).1 now = 0 := by
    unfold virtualTime
    rw [c4, c3]
    simp
  have c8 : (draw cfg notes now s).2.1 = [] := by rw [hdraw]; exact hB
  refine ⟨c1, c2, c3, c4, c5, c6, c7, c8, ?_⟩
  intro n now2 hsorted hnd hmem hH hlt hwin1 hwin2 hc1 hc2
  have hsl : stopLimit (draw cfg notes now s).1 = stopLimit s := by
    apply stopLimit_congr
    · rw [hdraw, hf7]
    · rw [hdraw, hf8]
  exact draw_fires_fresh cfg notes now2 (draw cfg notes now s).1 n c4 c1 hH
    (by rw [hsl]; exact hlt) hsorted hnd hmem hwin1 hwin2 hc1 hc2

/-- Witness for C3: one note starting at 0, `stopLimit = 2`, wrap tick at
`now = 10` observing virtual time 2; the follow-up tick at `now = 11.5`
(virtual time 1.5, keyline at 140 px, crossing since the previous frame
time is 0) re-fires the note that had landed in the previous pass. -/
theorem c3_loop_wrap_witness :
    (draw ⟨280, 21, 108⟩ [⟨0, 60, 0, 1, 9/10⟩] 10
        ⟨2, 8, 1, 2, true, true, true, 1, none, [(0, 1)]⟩).1.landedAt = [] ∧
    (draw ⟨280, 21, 108⟩ [⟨0, 60, 0, 1, 9/10⟩] 10
        ⟨2, 8, 1, 2, true, true, true, 1, none, [(0, 1)]⟩).1.playhead = 0 ∧
    (draw ⟨280, 21, 108⟩ [⟨0, 60, 0, 1, 9/10⟩] 10
        ⟨2, 8, 1, 2, true, true, true, 1, none, [(0, 1)]⟩).2.1 = [] ∧
    (∃ e ∈ (draw ⟨280, 21, 108⟩ [⟨0, 60, 0, 1, 9/10⟩] (23/2)
        (draw ⟨280, 21, 108⟩ [⟨0, 60, 0, 1, 9/10⟩] 10
          ⟨2, 8, 1, 2, true, true, true, 1, none, [(0, 1)]⟩).1).2.1,
      e.noteId = 0 ∧ e.midi = 60) := by
  have h := c3_loop_wrap ⟨280, 21, 108⟩ [⟨0, 60, 0, 1, 9/10⟩] 10
    ⟨2, 8, 1, 2, true, true, true, 1, none, [(0, 1)]⟩
    rfl rfl (by simp) (by norm_num)
    (by norm_num [stopLimit, STOP_TAIL, virtualTime, max_def])
  have hvt : virtualTime (draw ⟨280, 21, 108⟩ [⟨0, 60, 0, 1, 9/10⟩] 10
      ⟨2, 8, 1, 2, true, true, true, 1, none, [(0, 1)]⟩).1 (23/2) = 3/2 := by
    unfold virtualTime
    rw [h.2.2.2.1, h.2.2.1, h.2.2.2.2.1]
    norm_num
  refine ⟨h.1, h.2.1, h.2.2.2.2.2.2.2.1, ?_⟩
  apply h.2.2.2.2.2.2.2.2 ⟨0, 60, 0, 1, 9/10⟩ (23/2)
  · simp [SortedByStart]
  · simp
  · simp
  · norm_num
  · rw [hvt]
    norm_num [stopLimit, STOP_TAIL, max_def]
  · rw [hvt]
    norm_num [lookBack, KB_HEIGHT, SPEED, VISUAL_MAX_SEC]
  · rw [hvt]
    norm_num [lookAhead, KB_HEIGHT, SPEED]
  · rw [h.2.2.2.2.2.1]
    norm_num [SPEED, KB_HEIGHT]
  · rw [hvt]
    norm_num [SPEED, KB_HEIGHT]

/-! ## Claim C7: stop followed by play lets every landed note re-trigger -/

/-- C7: stop clears the landed-note map and (with `resetToZero = true`)
resets the playhead to 0; a following play keeps the cleared map, so the
at-most-once guard no longer suppresses any note in the new epoch: every
note that had landed before the stop fires again on a tick whose frame
crosses its edge. -/
theorem c7_stop_play_retrigger (cfg : ViewCfg) (notes : List Note) (now1 now2 : ℚ)
    (s : PlayState) (hne : notes ≠ []) :
    (stop now1 true s).landedAt = [] ∧
    (stop now1 true s).playhead = 0 ∧
    (play notes cfg now2 (stop now1 true s)).landedAt = [] ∧
    (play notes cfg now2 (stop now1 true s)).playhead = 0 ∧
    (play notes cfg now2 (stop now1 true s)).isPlaying = true ∧
    (play notes cfg now2 (stop now1 true s)).prevT = 0 ∧
    (play notes cfg now2 (stop now1 true s)).rate = s.rate ∧
    (play notes cfg now2 (stop now1 true s)).t0 = now2 ∧
    (∀ (n : Note) (now3 : ℚ),
      (s.landedAt.lookup n.i).isSome = true →
      SortedByStart notes → (notes.map (·.i)).Nodup → n ∈ notes → 0 < cfg.H →
      virtualTime (play notes cfg now2 (stop now1 true s)) now3 <
        stopLimit (play notes cfg now2 (stop now1 true s)) - 1/60 →
      virtualTime (play notes cfg now2 (stop now1 true s)) now3 - lookBack cfg.H ≤ n.start →
      n.start ≤ virtualTime (play notes cfg now2 (stop now1 true s)) now3 + lookAhead cfg.H →
      ((play notes cfg now2 (stop now1 true s)).prevT - n.start) * SPEED < cfg.H - KB_HEIGHT →
      cfg.H - KB_HEIGHT ≤
        (virtualTime (play notes cfg now2 (stop now1 true s)) now3 - n.start) * SPEED →
      ∃ e ∈ (draw cfg notes now3 (play notes cfg now2 (stop now1 true s))).2.1,
        e.noteId = n.i ∧ e.midi = n.midi) := by
  have c1 : (stop now1 true s).landedAt = [] := rfl
  have c2 : (stop now1 true s).playhead = 0 := rfl
  have c3 : (play notes cfg now2 (stop now1 true s)).landedAt = [] := by
    simp [play, hne, stop]
  have c4 : (play notes cfg now2 (stop now1 true s)).playhead = 0 := by
    simp [play, hne, stop]
  have c5 : (play notes cfg now2 (stop now1 true s)).isPlaying = true := by
    simp [play, hne]
  have c6 : (play notes cfg now2 (stop now1 true s)).prevT = 0 := by
    simp [play, hne, stop]
  have c7 : (play notes cfg now2 (stop now1 true s)).rate = s.rate := by
    simp [play, hne, stop]
  have c8 : (play notes cfg now2 (stop now1 true s)).t0 = now2 := by
    simp [play, hne, stop]
  refine ⟨c1, c2, c3, c4, c5, c6, c7, c8, ?_⟩
  intro n now3 _hlanded hsorted hnd hmem hH hlt hwin1 hwin2 hc1 hc2
  exact draw_fires_fresh cfg notes now3 (play notes cfg now2 (stop now1 true s)) n
    c5 c3 hH hlt hsorted hnd hmem hwin1 hwin2 hc1 hc2

/-- Witness for C7: the note with id 0 has landed (`landedAt = [(0,1)]`);
stop at `now = 9`, play at `now = 10`, and the tick at `now = 11.5`
(virtual time 1.5) re-fires it. -/
theorem c7_stop_play_retrigger_witness :
    (play [⟨0, 60, 0, 1, 9/10⟩] ⟨280, 21, 108⟩ 10
        (stop 9 true ⟨2, 8, 1, 2, true, true, false, 1, none, [(0, 1)]⟩)).landedAt = [] ∧
    (∃ e ∈ (draw ⟨280, 21, 108⟩ [⟨0, 60, 0, 1, 9/10⟩] (23/2)
        (play [⟨0, 60, 0, 1, 9/10⟩] ⟨280, 21, 108⟩ 10
          (stop 9 true ⟨2, 8, 1, 2, true, true, false, 1, none, [(0, 1)]⟩))).2.1,
      e.noteId = 0 ∧ e.midi = 60) := by
  have h := c7_stop_play_retrigger ⟨280, 21, 108⟩ [⟨0, 60, 0, 1, 9/10⟩] 9 10
    ⟨2, 8, 1, 2, true, true, false, 1, none, [(0, 1)]⟩ (by simp)
  have hvt : virtualTime (play [⟨0, 60, 0, 1, 9/10⟩] ⟨280, 21, 108⟩ 10
      (stop 9 true ⟨2, 8, 1, 2, true, true, false, 1, none, [(0, 1)]⟩)) (23/2) = 3/2 := by
    unfold virtualTime
    rw [h.2.2.2.2.1, h.2.2.2.2.2.2.2.1, h.2.2.2.2.2.2.1]
    norm_num
  have hsl : stopLimit (play [⟨0, 60, 0, 1, 9/10⟩] ⟨280, 21, 108⟩ 10
      (stop 9 true ⟨2, 8, 1, 2, true, true, false, 1, none, [(0, 1)]⟩)) = 3 := by
    have hend : (play [⟨0, 60, 0, 1, 9/10⟩] ⟨280, 21, 108⟩ 10
        (stop 9 true ⟨2, 8, 1, 2, true, true, false, 1, none, [(0, 1)]⟩)).endTime =
        recomputeVisualEnd 280 [⟨0, 60, 0, 1, 9/10⟩] := by
      simp [play, stop]
    have hdur : (play [⟨0, 60, 0, 1, 9/10⟩] ⟨280, 21, 108⟩ 10
        (stop 9 true ⟨2, 8, 1, 2, true, true, false, 1, none, [(0, 1)]⟩)).duration = 1 := by
      simp [play, stop]
    unfold stopLimit
    rw [hend, hdur]
    norm_num [recomputeVisualEnd, NOTE_MIN_HEIGHT, SPEED, VISUAL_MAX_SEC, KB_HEIGHT,
      STOP_TAIL, max_def, min_def]
  refine ⟨h.2.2.1, ?_⟩
  apply h.2.2.2.2.2.2.2.2 ⟨0, 60, 0, 1, 9/10⟩ (23/2)
  · rfl
  · simp [SortedByStart]
  · simp
  · simp
  · norm_num
  · rw [hvt, hsl]
    norm_num
  · rw [hvt]
    norm_num [lookBack, KB_HEIGHT, SPEED, VISUAL_MAX_SEC]
  · rw [hvt]
    norm_num [lookAhead, KB_HEIGHT, SPEED]
  · rw [h.2.2.2.2.2.1]
    norm_num [SPEED, KB_HEIGHT]
  · rw [hvt]
    norm_num [SPEED, KB_HEIGHT]

end FallingNotes
